import Mathlib

/-!
Box2DChainshapes: the orb lifecycle, the cull pass and the platform polyline

A shallow embedding of `src/main.cpp`.

* `float` values are modelled in exact arithmetic as rationals (`ℚ`); rounding, infinities
  and NaN are outside the model.
* The physics engine (Box2D) and the renderer (raylib) are external collaborators.  The
  engine is modelled as an explicit registry `b2World` of live bodies, shapes and chains that
  is threaded through the code; the constraint solver behind `b2World_Step` is a parameter.
  Draw calls are modelled as the list of emitted commands.
* `std::vector<Orb*>` is modelled as `List Orb`: every pointer owns a distinct heap object.
-/

namespace Box2DChainshapes

/-! ## Constants and unit conversion (main.cpp 7-31) -/

/-- The vector type of the renderer (pixel units). -/
structure Vector2 where
  x : ℚ
  y : ℚ
deriving DecidableEq

/-- The vector type of the physics engine (world units, metres). -/
structure b2Vec2 where
  x : ℚ
  y : ℚ
deriving DecidableEq

def WINDOW_WIDTH : Int := 640

def WINDOW_HEIGHT : Int := 480

def PPM : ℚ := 100

def TIME_STEP : ℚ := 1 / 60

def SUB_STEP : Int := 4

/-- Convert meters to pixels using a b2Vec2. -/
def m2PxVec (vec : b2Vec2) : Vector2 :=
  ⟨vec.x * PPM, vec.y * PPM⟩

/-- Convert pixels to meters using a Vector2. -/
def px2MVec (vec : Vector2) : b2Vec2 :=
  ⟨vec.x / PPM, vec.y / PPM⟩

/-- Convert meters to pixels using a float. -/
def m2Px (n : ℚ) : ℚ :=
  n * PPM

/-- Convert pixels to meters using a float. -/
def px2M (n : ℚ) : ℚ :=
  n / PPM

/-! ## The physics engine, as far as main.cpp uses it -/

abbrev b2BodyId := Nat

abbrev b2ShapeId := Nat

abbrev b2ChainId := Nat

inductive b2BodyType where
  | b2_staticBody
  | b2_dynamicBody
deriving DecidableEq

/-- The fields of the engine's body definition that main.cpp sets. -/
structure b2BodyDef where
  type : b2BodyType
  position : b2Vec2
deriving DecidableEq

structure b2Circle where
  center : b2Vec2
  radius : ℚ
deriving DecidableEq

structure b2SurfaceMaterial where
  friction : ℚ
  restitution : ℚ
deriving DecidableEq

/-- The fields of the engine's chain definition that main.cpp sets. -/
structure b2ChainDef where
  points : List b2Vec2
  count : Int
  materials : b2SurfaceMaterial
  materialCount : Int
  isLoop : Bool
deriving DecidableEq

/-- Modelled from the spec: the simulation context of the external physics engine (spec §6:
create/destroy bodies with a position, attach/detach shapes, step, query a body's position).
It is the registry of the live bodies, circle shapes and chains; `nextId` is the next
unused handle. -/
structure b2World where
  gravity : b2Vec2
  bodies : List (b2BodyId × b2BodyDef)
  shapes : List (b2ShapeId × b2BodyId × b2Circle)
  chains : List (b2ChainId × b2BodyId × b2ChainDef)
  nextId : Nat
deriving DecidableEq

/-- Modelled from the spec: the engine's default body definition (a static body at the
origin). -/
def b2DefaultBodyDef : b2BodyDef :=
  ⟨b2BodyType.b2_staticBody, ⟨0, 0⟩⟩

/-- Modelled from the spec: the engine's default chain definition (no points, open). -/
def b2DefaultChainDef : b2ChainDef :=
  ⟨[], 0, ⟨0, 0⟩, 0, false⟩

/-- Modelled from the spec: create a simulation context with a gravity vector. -/
def b2CreateWorld (gravity : b2Vec2) : b2World :=
  ⟨gravity, [], [], [], 0⟩

/-- Modelled from the spec: create a rigid body; the engine registers it under a fresh
handle. -/
def b2CreateBody (world : b2World) (d : b2BodyDef) : b2World × b2BodyId :=
  ({ world with bodies := world.bodies ++ [(world.nextId, d)], nextId := world.nextId + 1 },
    world.nextId)

/-- Modelled from the spec: attach a circular collision shape to a body. -/
def b2CreateCircleShape (world : b2World) (body : b2BodyId) (circle : b2Circle) :
    b2World × b2ShapeId :=
  ({ world with shapes := world.shapes ++ [(world.nextId, body, circle)],
                nextId := world.nextId + 1 },
    world.nextId)

/-- Modelled from the spec: attach an open-polyline collision shape to a body. -/
def b2CreateChain (world : b2World) (body : b2BodyId) (d : b2ChainDef) :
    b2World × b2ChainId :=
  ({ world with chains := world.chains ++ [(world.nextId, body, d)],
                nextId := world.nextId + 1 },
    world.nextId)

/-- Modelled from the spec: detach (release) a chain shape. -/
def b2DestroyChain (world : b2World) (chain : b2ChainId) : b2World :=
  { world with chains := world.chains.filter (fun c => c.1 ≠ chain) }

/-- Modelled from the spec: destroy a rigid body; the engine releases the shapes and chains
attached to it as well. -/
def b2DestroyBody (world : b2World) (body : b2BodyId) : b2World :=
  { world with
    bodies := world.bodies.filter (fun b => b.1 ≠ body)
    shapes := world.shapes.filter (fun s => s.2.1 ≠ body)
    chains := world.chains.filter (fun c => c.2.1 ≠ body) }

/-- Modelled from the spec: query a body's current position; `none` for a handle the context
does not hold (a precondition violation of the engine). -/
def b2Body_GetPosition (world : b2World) (body : b2BodyId) : Option b2Vec2 :=
  (world.bodies.lookup body).map (fun b => b.position)

/-- Modelled from the spec: step the simulation by a fixed time delta and sub-iteration
count.  The solver is external: `solver world dt sub body` is the position it gives to
`body`.  A step moves the live bodies and neither creates nor destroys anything. -/
def b2World_Step (solver : b2World → ℚ → Int → b2BodyId → b2Vec2)
    (world : b2World) (timeStep : ℚ) (subStepCount : Int) : b2World :=
  { world with
    bodies := world.bodies.map
      (fun b => (b.1, { b.2 with position := solver world timeStep subStepCount b.1 })) }

/-- The context holds a body with this handle. -/
def b2World.holdsBody (world : b2World) (body : b2BodyId) : Prop :=
  body ∈ world.bodies.map Prod.fst

/-- The context holds a shape with this handle. -/
def b2World.holdsShape (world : b2World) (shape : b2ShapeId) : Prop :=
  shape ∈ world.shapes.map Prod.fst

instance (world : b2World) (body : b2BodyId) : Decidable (world.holdsBody body) := by
  unfold b2World.holdsBody; infer_instance

instance (world : b2World) (shape : b2ShapeId) : Decidable (world.holdsShape shape) := by
  unfold b2World.holdsShape; infer_instance

/-! ## Orb (main.cpp 42-109) -/

/-- The Orb class.  `m_shapeDef` always holds the engine's default shape definition and is
not represented. -/
structure Orb where
  m_X : ℚ
  m_Y : ℚ
  m_radius : ℚ
  m_position : b2Vec2
  m_bodyDef : b2BodyDef
  m_body : b2BodyId
  m_circleShape : b2Circle
  m_shape : b2ShapeId
deriving DecidableEq

/-- The constructor `Orb(centerX, centerY, radius, world)`: returns the context with the new
body and shape registered, and the Orb. -/
def Orb.new (centerX centerY radius : ℚ) (world : b2World) : b2World × Orb :=
  let m_X := centerX
  let m_Y := centerY
  let m_radius := px2M radius
  let m_position : b2Vec2 := ⟨px2M m_X, px2M m_Y⟩
  let m_bodyDef : b2BodyDef :=
    { b2DefaultBodyDef with position := m_position, type := b2BodyType.b2_dynamicBody }
  let r1 := b2CreateBody world m_bodyDef
  let m_circleShape : b2Circle := ⟨⟨0, 0⟩, m_radius⟩
  let r2 := b2CreateCircleShape r1.1 r1.2 m_circleShape
  (r2.1, ⟨m_X, m_Y, m_radius, m_position, m_bodyDef, r1.2, m_circleShape, r2.2⟩)

/-- The destructor `~Orb() = default`: it makes no call into the engine, so the context is
returned as it was. -/
def Orb.delete (world : b2World) (_orb : Orb) : b2World :=
  world

/-- The factory `Orb::generateOrbAtMouse`; `mousePos` is what `GetMousePosition()` returns and
`rand` is the sample `getRandFloat(5.0f, 25.0f)` draws. -/
def Orb.generateOrbAtMouse (mousePos : Vector2) (rand : ℚ) (world : b2World) :
    b2World × Orb :=
  Orb.new mousePos.x mousePos.y rand world

/-- The method `Orb::update`: re-read the position from the engine. -/
def Orb.update (world : b2World) (orb : Orb) : Option Orb :=
  match b2Body_GetPosition world orb.m_body with
  | some p => some { orb with m_position := p }
  | none => none

def Orb.getPosition (orb : Orb) : b2Vec2 :=
  orb.m_position

def Orb.getRadius (orb : Orb) : ℚ :=
  orb.m_radius

/-! ## Platform (main.cpp 111-168) -/

/-- One call of the renderer's `DrawLineEx(startPos, endPos, thick, color)`. -/
structure DrawLineEx where
  startPos : Vector2
  endPos : Vector2
  thick : ℚ
  color : Nat × Nat × Nat × Nat
deriving DecidableEq

/-- The Platform class.  `m_verts` is the array `b2Vec2 m_verts[7]`; the unused member
`materials` is not represented. -/
structure Platform where
  m_verts : List b2Vec2
  m_chainMaterial : b2SurfaceMaterial
  m_bodyDef : b2BodyDef
  m_bodyId : b2BodyId
  m_chainDef : b2ChainDef
  m_chainId : b2ChainId
deriving DecidableEq

/-- The constructor `Platform(world)`: returns the context with the static body and the chain
registered, and the Platform. -/
def Platform.new (world : b2World) : b2World × Platform :=
  let m_bodyDef : b2BodyDef := { b2DefaultBodyDef with type := b2BodyType.b2_staticBody }
  let r1 := b2CreateBody world m_bodyDef
  -- Bookended with verts offscreen, as chain shapes have no collision on isolated vertices
  let m_verts : List b2Vec2 :=
    [ px2MVec ⟨-10, (WINDOW_HEIGHT : ℚ) - 10⟩,
      px2MVec ⟨0, (WINDOW_HEIGHT : ℚ) - 30⟩,
      px2MVec ⟨160, (WINDOW_HEIGHT : ℚ) - 90⟩,
      px2MVec ⟨320, (WINDOW_HEIGHT : ℚ) - 75⟩,
      px2MVec ⟨480, (WINDOW_HEIGHT : ℚ) - 140⟩,
      px2MVec ⟨(WINDOW_WIDTH : ℚ), (WINDOW_HEIGHT : ℚ) - 30⟩,
      px2MVec ⟨(WINDOW_WIDTH : ℚ) + 10, (WINDOW_HEIGHT : ℚ) - 10⟩ ]
  let m_chainMaterial : b2SurfaceMaterial := ⟨2 / 10, 4 / 10⟩
  let m_chainDef : b2ChainDef :=
    { b2DefaultChainDef with
      count := (m_verts.length : Int)
      points := m_verts
      materials := m_chainMaterial
      materialCount := 1
      isLoop := false }
  let r2 := b2CreateChain r1.1 r1.2 m_chainDef
  (r2.1, ⟨m_verts, m_chainMaterial, m_bodyDef, r1.2, m_chainDef, r2.2⟩)

/-- The method `Platform::destroy`: release the chain, then the body. -/
def Platform.destroy (world : b2World) (p : Platform) : b2World :=
  b2DestroyBody (b2DestroyChain world p.m_chainId) p.m_bodyId

/-- Conversion of an `int` to `std::size_t` (64 bits). -/
def toSizeT (n : Int) : Nat :=
  (n % 2 ^ 64).toNat

/-- The loop of `Platform::draw` from index `i` on, with the commands emitted so far;
`none` when an index falls outside `m_verts`. -/
def Platform.drawLoop (p : Platform) (i : Nat) (out : List DrawLineEx) :
    Option (List DrawLineEx) :=
  if i < toSizeT (p.m_chainDef.count - 1) then
    match p.m_verts[i]?, p.m_verts[i + 1]? with
    | some a, some b =>
      Platform.drawLoop p (i + 1) (out ++ [⟨m2PxVec a, m2PxVec b, 2, (0, 0, 255, 255)⟩])
    | _, _ => none
  else some out
termination_by toSizeT (p.m_chainDef.count - 1) - i

/-- The method `Platform::draw`: the line commands it emits, in order. -/
def Platform.draw (p : Platform) : Option (List DrawLineEx) :=
  Platform.drawLoop p 0 []

/-! ## World (main.cpp 171-238) -/

/-- The World class.  `m_worldId` stands for the context its handle refers to. -/
structure World where
  m_worldId : b2World
  m_platform : Platform
  orbs : List Orb
  orbClock : Int
deriving DecidableEq

/-- The constructor `World()`. -/
def World.new : World :=
  let m_worldId := b2CreateWorld ⟨0, 10⟩
  let r := Platform.new m_worldId
  ⟨r.1, r.2, [], 0⟩

/-- What one frame reads from the renderer: `IsMouseButtonDown(MOUSE_BUTTON_LEFT)`,
`GetMousePosition()` and the sample drawn by `getRandFloat(5.0f, 25.0f)`. -/
structure Input where
  leftDown : Bool
  mousePos : Vector2
  rand : ℚ
deriving DecidableEq

/-- The method `World::handleInput`: add orb if mouse button down, every other frame. -/
def World.handleInput (inp : Input) (w : World) : World :=
  if inp.leftDown then
    if w.orbClock ≤ 1 then
      { w with orbClock := w.orbClock + 1 }
    else
      let r := Orb.generateOrbAtMouse inp.mousePos inp.rand w.m_worldId
      { w with m_worldId := r.1, orbs := w.orbs ++ [r.2], orbClock := 0 }
  else w

/-- Consecutive calls of `World::handleInput`, one per frame input, in order. -/
def World.handleInputs (ins : List Input) (w : World) : World :=
  ins.foldl (fun acc inp => World.handleInput inp acc) w

/-- The cull test of `World::update` (line 213) on a synced Orb. -/
def Orb.offScreen (orb : Orb) : Bool :=
  let x := orb.getPosition.x
  let y := orb.getPosition.y
  let rad := orb.getRadius
  decide (x > (WINDOW_WIDTH : ℚ) + rad) || decide (x < 0 - rad)
    || decide (y > (WINDOW_WIDTH : ℚ) + rad)

/-- The loop of `World::update` from index `i` on; it returns the context, the collection
and the log.  `log` records, in order, the bodies whose position has been read by
`orbs[i]->update()`.  The result is `none` when an Orb's body is not held by the context. -/
def World.updateLoop (world : b2World) (i : Nat) (orbs : List Orb) (log : List b2BodyId) :
    Option (b2World × List Orb × List b2BodyId) :=
  if h : i < orbs.length then
    match Orb.update world (orbs.get ⟨i, h⟩) with
    | none => none
    | some o =>
      if o.offScreen then
        World.updateLoop (Orb.delete world o) i ((orbs.set i o).eraseIdx i) (log ++ [o.m_body])
      else
        World.updateLoop world (i + 1) (orbs.set i o) (log ++ [o.m_body])
  else some (world, orbs, log)
termination_by orbs.length - i
decreasing_by
  all_goals simp_wf
  · simp [List.length_eraseIdx, h]; omega
  · omega

/-- The sync pass in the spec's words: for every live Orb, in collection order, sync its
position from the physics engine (`Orb::update` on each Orb, once). -/
def World.syncAll (world : b2World) : List Orb → Option (List Orb)
  | [] => some []
  | o :: rest =>
    match Orb.update world o, World.syncAll world rest with
    | some o1, some rest1 => some (o1 :: rest1)
    | _, _ => none

/-- The cull pass in the spec's words: sync every live Orb in collection order, then retain
exactly the Orbs that do not satisfy the cull test, in their original order. -/
def World.cullPassSpec (world : b2World) (orbs : List Orb) : Option (List Orb) :=
  (World.syncAll world orbs).map (fun synced => synced.filter (fun o => !o.offScreen))

/-- The method `World::update`: update orbs, delete/pop orb if off screen. -/
def World.update (solver : b2World → ℚ → Int → b2BodyId → b2Vec2) (w : World) :
    Option World :=
  let world := b2World_Step solver w.m_worldId TIME_STEP SUB_STEP
  match World.updateLoop world 0 w.orbs [] with
  | some r => some { w with m_worldId := r.1, orbs := r.2.1 }
  | none => none

/-! ## Concrete scenarios -/

/-- The World after three held frames with the pointer at pixel (320, 100) and sampled radius
10: it holds one Orb, whose body has handle 2 and whose shape has handle 3 (the platform took
handles 0 and 1). -/
def World.demo : World :=
  World.handleInputs (List.replicate 3 ⟨true, ⟨320, 100⟩, 10⟩) World.new

/-- The Orb of the demo World with its cached position set to `p`. -/
def demoOrb (p : b2Vec2) : Orb :=
  ⟨320, 100, 1 / 10, p, ⟨b2BodyType.b2_dynamicBody, ⟨32 / 10, 1⟩⟩, 2, ⟨⟨0, 0⟩, 1 / 10⟩, 3⟩

/-- A solver outcome that puts the body with handle 2 at `p` and leaves the static platform
body at the origin. -/
def solverTo (p : b2Vec2) : b2World → ℚ → Int → b2BodyId → b2Vec2 :=
  fun _ _ _ body => if body = 2 then p else ⟨0, 0⟩

/-- The World after nine held frames: three with the pointer at pixel (100, 100) and sampled
radius 10, three at (320, 100) with radius 20, three at (500, 50) with radius 5.  It holds
three Orbs, with bodies 2, 4, 6 and shapes 3, 5, 7. -/
def World.trio : World :=
  World.handleInputs
    (List.replicate 3 ⟨true, ⟨100, 100⟩, 10⟩ ++ List.replicate 3 ⟨true, ⟨320, 100⟩, 20⟩ ++
      List.replicate 3 ⟨true, ⟨500, 50⟩, 5⟩)
    World.new

/-- An Orb as the constructor builds it from pixel centre (`cx`, `cy`) and pixel radius `r`
with body handle `body` and shape handle `body + 1`, its cached position set to `p`. -/
def spawnedOrb (cx cy r : ℚ) (body : b2BodyId) (p : b2Vec2) : Orb :=
  ⟨cx, cy, r / 100, p, ⟨b2BodyType.b2_dynamicBody, ⟨cx / 100, cy / 100⟩⟩, body,
    ⟨⟨0, 0⟩, r / 100⟩, body + 1⟩

/-- A solver outcome for the trio World: body 2 rests at world (1, 3), body 4 has rolled off
the left end to world (-1, 5), body 6 rests at world (5, 3); the static platform body stays
at the origin. -/
def solverTrio : b2World → ℚ → Int → b2BodyId → b2Vec2 :=
  fun _ _ _ body =>
    if body = 2 then ⟨1, 3⟩ else if body = 4 then ⟨-1, 5⟩ else if body = 6 then ⟨5, 3⟩
    else ⟨0, 0⟩

/-! ## Unit conversion -/

/-- C8: the unit conversions are mutual inverses in exact arithmetic, on scalars and
componentwise on 2D vectors. -/
theorem unit_conversion_roundtrip :
    (∀ x : ℚ, px2M (m2Px x) = x) ∧ (∀ x : ℚ, m2Px (px2M x) = x) ∧
    (∀ v : b2Vec2, px2MVec (m2PxVec v) = v) ∧ (∀ v : Vector2, m2PxVec (px2MVec v) = v) := by
  refine ⟨?_, ?_, ?_, ?_⟩
  · intro x
    simp [px2M, m2Px, PPM]
  · intro x
    simp [px2M, m2Px, PPM]
  · intro v
    cases v
    simp [px2MVec, m2PxVec, PPM]
  · intro v
    cases v
    simp [px2MVec, m2PxVec, PPM]

/-! ## Input throttling -/

theorem handleInputs_snoc (ins : List Input) (inp : Input) (w : World) :
    World.handleInputs (ins ++ [inp]) w = World.handleInput inp (World.handleInputs ins w) := by
  simp [World.handleInputs, List.foldl_append]

theorem handleInput_held_low (inp : Input) (w : World) (hd : inp.leftDown = true)
    (hc : w.orbClock ≤ 1) :
    World.handleInput inp w = { w with orbClock := w.orbClock + 1 } := by
  simp [World.handleInput, hd, hc]

theorem handleInput_held_high (inp : Input) (w : World) (hd : inp.leftDown = true)
    (hc : ¬ w.orbClock ≤ 1) :
    World.handleInput inp w =
      { w with
        m_worldId := (Orb.generateOrbAtMouse inp.mousePos inp.rand w.m_worldId).1
        orbs := w.orbs ++ [(Orb.generateOrbAtMouse inp.mousePos inp.rand w.m_worldId).2]
        orbClock := 0 } := by
  simp [World.handleInput, hd, hc]

/-- After `n` held frames from a fresh World the collection holds `n / 3` Orbs and the
counter is `n % 3`. -/
theorem handleInputs_held_state (ins : List Input) (hheld : ∀ inp ∈ ins, inp.leftDown = true) :
    (World.handleInputs ins World.new).orbs.length = ins.length / 3 ∧
    (World.handleInputs ins World.new).orbClock = ((ins.length % 3 : Nat) : Int) := by
  induction ins using List.reverseRecOn with
  | nil => simp [World.handleInputs, World.new]
  | append_singleton ins inp ih =>
    have hd : inp.leftDown = true := hheld inp (by simp)
    obtain ⟨hlen, hclk⟩ := ih (fun j hj => hheld j (by simp [hj]))
    rw [handleInputs_snoc]
    by_cases hc : (World.handleInputs ins World.new).orbClock ≤ 1
    · rw [handleInput_held_low inp _ hd hc]
      simp only [List.length_append, List.length_singleton]
      rw [hclk] at hc ⊢
      rw [hlen]
      constructor <;> omega
    · rw [handleInput_held_high inp _ hd hc]
      simp only [List.length_append, List.length_singleton]
      rw [hclk] at hc
      rw [hlen]
      constructor <;> omega

/-- C1: from a fresh World, after N consecutive held calls of handleInput the collection
holds exactly N / 3 Orbs (and the counter is N mod 3); the next held call, number N + 1,
appends exactly one Orb and resets the counter to 0 when N + 1 is a multiple of 3, and
appends nothing otherwise. -/
theorem handleInput_held_spawns_every_third (ins : List Input)
    (hheld : ∀ inp ∈ ins, inp.leftDown = true) :
    (World.handleInputs ins World.new).orbs.length = ins.length / 3 ∧
    (World.handleInputs ins World.new).orbClock = ((ins.length % 3 : Nat) : Int) ∧
    ∀ inp : Input, inp.leftDown = true →
      ((ins.length + 1) % 3 = 0 →
        (World.handleInput inp (World.handleInputs ins World.new)).orbs =
          (World.handleInputs ins World.new).orbs ++
            [(Orb.generateOrbAtMouse inp.mousePos inp.rand
              (World.handleInputs ins World.new).m_worldId).2] ∧
        (World.handleInput inp (World.handleInputs ins World.new)).orbClock = 0) ∧
      ((ins.length + 1) % 3 ≠ 0 →
        (World.handleInput inp (World.handleInputs ins World.new)).orbs =
          (World.handleInputs ins World.new).orbs) := by
  obtain ⟨hlen, hclk⟩ := handleInputs_held_state ins hheld
  refine ⟨hlen, hclk, ?_⟩
  intro inp hd
  constructor
  · intro hk
    have hc : ¬ (World.handleInputs ins World.new).orbClock ≤ 1 := by
      rw [hclk]; omega
    rw [handleInput_held_high inp _ hd hc]
    exact ⟨rfl, rfl⟩
  · intro hk
    have hc : (World.handleInputs ins World.new).orbClock ≤ 1 := by
      rw [hclk]; omega
    rw [handleInput_held_low inp _ hd hc]

/-- Witness for C1: seven held frames spawn two Orbs. -/
theorem handleInput_held_spawns_every_third_witness :
    (World.handleInputs (List.replicate 7 ⟨true, ⟨320, 100⟩, 10⟩) World.new).orbs.length = 2 :=
  (handleInput_held_spawns_every_third (List.replicate 7 ⟨true, ⟨320, 100⟩, 10⟩)
    (by intro inp h; rw [List.eq_of_mem_replicate h])).1

/-- C9: a call of handleInput while the button is not held leaves the World (counter and
collection included) unchanged, so after any run of released frames a held frame acts
exactly as it would have acted before the release. -/
theorem handleInput_released_unchanged (w : World) :
    (∀ inp : Input, inp.leftDown = false → World.handleInput inp w = w) ∧
    (∀ (rel : List Input) (inp : Input), (∀ r ∈ rel, r.leftDown = false) →
      World.handleInput inp (World.handleInputs rel w) = World.handleInput inp w) := by
  have h1 : ∀ (v : World) (inp : Input), inp.leftDown = false → World.handleInput inp v = v := by
    intro v inp hu
    simp [World.handleInput, hu]
  refine ⟨h1 w, ?_⟩
  intro rel inp hrel
  have h2 : World.handleInputs rel w = w := by
    induction rel using List.reverseRecOn with
    | nil => rfl
    | append_singleton rel r ih =>
      rw [handleInputs_snoc, ih (fun j hj => hrel j (by simp [hj]))]
      exact h1 w r (hrel r (by simp))
  rw [h2]

/-- Witness for C9: mid-cycle (counter 2), two released frames change nothing and the next
held frame spawns exactly as it would have without the release. -/
theorem handleInput_released_unchanged_witness :
    World.handleInput ⟨false, ⟨5, 5⟩, 7⟩
        (World.handleInputs (List.replicate 2 ⟨true, ⟨320, 100⟩, 10⟩) World.new) =
      World.handleInputs (List.replicate 2 ⟨true, ⟨320, 100⟩, 10⟩) World.new ∧
    World.handleInput ⟨true, ⟨320, 100⟩, 10⟩
        (World.handleInputs (List.replicate 2 ⟨false, ⟨5, 5⟩, 7⟩)
          (World.handleInputs (List.replicate 2 ⟨true, ⟨320, 100⟩, 10⟩) World.new)) =
      World.handleInput ⟨true, ⟨320, 100⟩, 10⟩
        (World.handleInputs (List.replicate 2 ⟨true, ⟨320, 100⟩, 10⟩) World.new) :=
  ⟨(handleInput_released_unchanged _).1 ⟨false, ⟨5, 5⟩, 7⟩ rfl,
   (handleInput_released_unchanged _).2 (List.replicate 2 ⟨false, ⟨5, 5⟩, 7⟩)
     ⟨true, ⟨320, 100⟩, 10⟩ (by intro r h; rw [List.eq_of_mem_replicate h])⟩

/-! ## The cull pass of `World::update` -/

theorem Orb.update_eq_some {world : b2World} {o o1 : Orb} (h : Orb.update world o = some o1) :
    ∃ p, b2Body_GetPosition world o.m_body = some p ∧ o1 = { o with m_position := p } := by
  unfold Orb.update at h
  cases hp : b2Body_GetPosition world o.m_body with
  | none => rw [hp] at h; cases h
  | some p =>
    rw [hp] at h
    exact ⟨p, rfl, (Option.some.inj h).symm⟩

theorem Orb.update_m_body {world : b2World} {o o1 : Orb} (h : Orb.update world o = some o1) :
    o1.m_body = o.m_body := by
  obtain ⟨p, -, rfl⟩ := Orb.update_eq_some h
  rfl

theorem Orb.update_m_radius {world : b2World} {o o1 : Orb} (h : Orb.update world o = some o1) :
    o1.m_radius = o.m_radius := by
  obtain ⟨p, -, rfl⟩ := Orb.update_eq_some h
  rfl

theorem syncAll_cons_eq_some {world : b2World} {o : Orb} {rest synced : List Orb}
    (h : World.syncAll world (o :: rest) = some synced) :
    ∃ o1 rest1, Orb.update world o = some o1 ∧ World.syncAll world rest = some rest1 ∧
      synced = o1 :: rest1 := by
  unfold World.syncAll at h
  cases h1 : Orb.update world o with
  | none => rw [h1] at h; cases h
  | some o1 =>
    cases h2 : World.syncAll world rest with
    | none => rw [h1, h2] at h; cases h
    | some rest1 =>
      rw [h1, h2] at h
      exact ⟨o1, rest1, rfl, rfl, (Option.some.inj h).symm⟩

/-- One iteration of the loop at an index inside the collection. -/
theorem updateLoop_step {world : b2World} {i : Nat} {orbs : List Orb} {o o1 : Orb}
    (log : List b2BodyId) (hi : orbs[i]? = some o) (hu : Orb.update world o = some o1) :
    World.updateLoop world i orbs log =
      if o1.offScreen then
        World.updateLoop world i ((orbs.set i o1).eraseIdx i) (log ++ [o1.m_body])
      else
        World.updateLoop world (i + 1) (orbs.set i o1) (log ++ [o1.m_body]) := by
  obtain ⟨h, hget⟩ := List.getElem?_eq_some.mp hi
  rw [World.updateLoop]
  simp only [h, dite_true, List.get_eq_getElem, hget, hu, Orb.delete]

/-- The loop at the end of the collection. -/
theorem updateLoop_done {world : b2World} {i : Nat} {orbs : List Orb}
    (log : List b2BodyId) (hi : ¬ i < orbs.length) :
    World.updateLoop world i orbs log = some (world, orbs, log) := by
  rw [World.updateLoop]
  simp only [hi, dite_false]

/-- An iteration whose position query fails aborts the loop. -/
theorem updateLoop_step_none {world : b2World} {i : Nat} {orbs : List Orb} {o : Orb}
    (log : List b2BodyId) (hi : orbs[i]? = some o) (hu : Orb.update world o = none) :
    World.updateLoop world i orbs log = none := by
  obtain ⟨h, hget⟩ := List.getElem?_eq_some.mp hi
  rw [World.updateLoop]
  simp only [h, dite_true, List.get_eq_getElem, hget, hu]

/-- The loop, started behind a front part `pre` of already visited survivors, leaves that
part alone, replaces the rest by its synced survivors, and reads each remaining body once; it
fails exactly when syncing the rest fails. -/
theorem updateLoop_eq (world : b2World) :
    ∀ (suf pre : List Orb) (log : List b2BodyId),
      World.updateLoop world pre.length (pre ++ suf) log =
        (World.syncAll world suf).map (fun synced =>
          (world, pre ++ synced.filter (fun o => !o.offScreen), log ++ suf.map Orb.m_body)) := by
  intro suf
  induction suf with
  | nil =>
    intro pre log
    rw [updateLoop_done log (by simp)]
    simp [World.syncAll]
  | cons o suf ih =>
    intro pre log
    have hi : (pre ++ o :: suf)[pre.length]? = some o := by
      rw [List.getElem?_append_right (le_refl _)]
      simp
    cases hu : Orb.update world o with
    | none =>
      rw [updateLoop_step_none log hi hu]
      simp [World.syncAll, hu]
    | some o1 =>
      rw [updateLoop_step log hi hu]
      have hset : (pre ++ o :: suf).set pre.length o1 = pre ++ o1 :: suf := by simp
      rw [hset]
      by_cases hoff : o1.offScreen = true
      · have herase : (pre ++ o1 :: suf).eraseIdx pre.length = pre ++ suf := by
          rw [List.eraseIdx_append_of_length_le (le_refl _)]
          simp
        rw [if_pos hoff, herase, ih pre _]
        cases hrest : World.syncAll world suf with
        | none => simp [World.syncAll, hu, hrest]
        | some rest1 =>
          simp [World.syncAll, hu, hrest, List.filter_cons, hoff, Orb.update_m_body hu]
      · have hpre : pre ++ o1 :: suf = (pre ++ [o1]) ++ suf := by simp
        have hlen : pre.length + 1 = (pre ++ [o1]).length := by simp
        rw [if_neg hoff, hpre, hlen, ih (pre ++ [o1]) _]
        cases hrest : World.syncAll world suf with
        | none => simp [World.syncAll, hu, hrest]
        | some rest1 =>
          simp [World.syncAll, hu, hrest, List.filter_cons, hoff, Orb.update_m_body hu]

/-- The whole loop refines the spec-level pass: from index 0 it returns the synced survivors
and has read every body of the collection once, in order. -/
theorem updateLoop_refines (world : b2World) (orbs : List Orb) :
    World.updateLoop world 0 orbs [] =
      (World.syncAll world orbs).map (fun synced =>
        (world, synced.filter (fun o => !o.offScreen), orbs.map Orb.m_body)) := by
  have h := updateLoop_eq world orbs [] []
  simpa using h

/-- What update returns is the spec-level cull pass on the stepped context. -/
theorem update_refines (solver : b2World → ℚ → Int → b2BodyId → b2Vec2) (w : World) :
    (World.update solver w).map World.orbs =
      World.cullPassSpec (b2World_Step solver w.m_worldId TIME_STEP SUB_STEP) w.orbs := by
  unfold World.update World.cullPassSpec
  simp only [updateLoop_refines]
  cases World.syncAll (b2World_Step solver w.m_worldId TIME_STEP SUB_STEP) w.orbs <;> rfl

theorem lookup_of_mem_keys {β : Type} (k : Nat) :
    ∀ l : List (Nat × β), k ∈ l.map Prod.fst → ∃ v, l.lookup k = some v := by
  intro l
  induction l with
  | nil => intro h; simp at h
  | cons kv l ih =>
    intro h
    obtain ⟨k1, v1⟩ := kv
    by_cases hk : k = k1
    · subst hk
      exact ⟨v1, by simp [List.lookup]⟩
    · have hmem : k ∈ l.map Prod.fst := by
        simp only [List.map_cons, List.mem_cons] at h
        rcases h with h | h
        · exact absurd h hk
        · exact h
      obtain ⟨v, hv⟩ := ih hmem
      refine ⟨v, ?_⟩
      have hb : (k == k1) = false := by simpa using hk
      simp [List.lookup, hb, hv]

/-- A held body has a position to read. -/
theorem getPosition_of_holdsBody {world : b2World} {body : b2BodyId}
    (h : world.holdsBody body) : ∃ p, b2Body_GetPosition world body = some p := by
  obtain ⟨v, hv⟩ := lookup_of_mem_keys body world.bodies h
  exact ⟨v.position, by simp [b2Body_GetPosition, hv]⟩

/-- A step neither creates nor destroys bodies. -/
theorem step_holdsBody (solver : b2World → ℚ → Int → b2BodyId → b2Vec2) (world : b2World)
    (dt : ℚ) (sub : Int) (body : b2BodyId) :
    (b2World_Step solver world dt sub).holdsBody body ↔ world.holdsBody body := by
  simp [b2World.holdsBody, b2World_Step, List.map_map, Function.comp_def]

theorem syncAll_of_held (world : b2World) :
    ∀ orbs : List Orb, (∀ o ∈ orbs, world.holdsBody o.m_body) →
      ∃ synced, World.syncAll world orbs = some synced := by
  intro orbs
  induction orbs with
  | nil => intro _; exact ⟨[], rfl⟩
  | cons o rest ih =>
    intro h
    obtain ⟨p, hp⟩ := getPosition_of_holdsBody (h o (by simp))
    obtain ⟨rest1, hrest⟩ := ih (fun j hj => h j (by simp [hj]))
    exact ⟨{ o with m_position := p } :: rest1, by simp [World.syncAll, Orb.update, hp, hrest]⟩

theorem syncAll_forall₂ (world : b2World) :
    ∀ (orbs synced : List Orb), World.syncAll world orbs = some synced →
      List.Forall₂ (fun o o1 => Orb.update world o = some o1) orbs synced := by
  intro orbs
  induction orbs with
  | nil =>
    intro synced h
    simp only [World.syncAll, Option.some.injEq] at h
    subst h
    exact List.Forall₂.nil
  | cons o rest ih =>
    intro synced h
    obtain ⟨o1, rest1, hu, hrest, rfl⟩ := syncAll_cons_eq_some h
    exact List.Forall₂.cons hu (ih rest1 hrest)

theorem syncAll_of_forall₂ (world : b2World) :
    ∀ (orbs synced : List Orb),
      List.Forall₂ (fun o o1 => Orb.update world o = some o1) orbs synced →
      World.syncAll world orbs = some synced := by
  intro orbs synced h
  induction h with
  | nil => rfl
  | cons h1 _ ih => simp [World.syncAll, h1, ih]

theorem syncAll_map_m_body (world : b2World) :
    ∀ (orbs synced : List Orb), World.syncAll world orbs = some synced →
      synced.map Orb.m_body = orbs.map Orb.m_body := by
  intro orbs
  induction orbs with
  | nil =>
    intro synced h
    simp only [World.syncAll, Option.some.injEq] at h
    subst h
    rfl
  | cons o rest ih =>
    intro synced h
    obtain ⟨o1, rest1, hu, hrest, rfl⟩ := syncAll_cons_eq_some h
    simp [Orb.update_m_body hu, ih rest1 hrest]

theorem syncAll_mem (world : b2World) :
    ∀ (orbs synced : List Orb), World.syncAll world orbs = some synced →
      ∀ o ∈ orbs, ∀ o1, Orb.update world o = some o1 → o1 ∈ synced := by
  intro orbs
  induction orbs with
  | nil => intro synced _ o ho; simp at ho
  | cons o rest ih =>
    intro synced h j hj j1 hj1
    obtain ⟨o1, rest1, hu, hrest, rfl⟩ := syncAll_cons_eq_some h
    rcases List.mem_cons.mp hj with rfl | hj
    · rw [hu] at hj1
      simp [Option.some.inj hj1]
    · exact List.mem_cons_of_mem _ (ih rest1 hrest j hj j1 hj1)

/-- The whole loop: from index 0 it returns the synced survivors and has read every
body of the collection once, in order. -/
theorem updateLoop_zero {world : b2World} {orbs synced : List Orb}
    (hs : World.syncAll world orbs = some synced) :
    World.updateLoop world 0 orbs [] =
      some (world, synced.filter (fun o => !o.offScreen), orbs.map Orb.m_body) := by
  rw [updateLoop_refines, hs]
  rfl

theorem update_eq {solver : b2World → ℚ → Int → b2BodyId → b2Vec2} {w : World}
    {synced : List Orb}
    (hs : World.syncAll (b2World_Step solver w.m_worldId TIME_STEP SUB_STEP) w.orbs
      = some synced) :
    World.update solver w =
      some { w with
        m_worldId := b2World_Step solver w.m_worldId TIME_STEP SUB_STEP
        orbs := synced.filter (fun o => !o.offScreen) } := by
  unfold World.update
  simp only [updateLoop_zero hs]

/-! ### The bodies of the live Orbs are held by the context

The precondition of the cull-pass theorems holds in every World the program reaches: it holds
in a fresh World and both `handleInput` and `update` preserve it. -/

theorem held_new : ∀ o ∈ World.new.orbs, World.new.m_worldId.holdsBody o.m_body := by
  intro o ho
  simp [World.new] at ho

theorem held_handleInput (inp : Input) (w : World)
    (hheld : ∀ o ∈ w.orbs, w.m_worldId.holdsBody o.m_body) :
    ∀ o ∈ (World.handleInput inp w).orbs,
      (World.handleInput inp w).m_worldId.holdsBody o.m_body := by
  unfold World.handleInput
  by_cases hd : inp.leftDown = true
  · by_cases hc : w.orbClock ≤ 1
    · simpa [hd, hc] using hheld
    · simp only [hd, hc, if_true, if_false]
      intro o ho
      rcases List.mem_append.mp ho with ho | ho
      · have := hheld o ho
        simp only [b2World.holdsBody] at this
        simp [b2World.holdsBody, Orb.generateOrbAtMouse, Orb.new, b2CreateBody,
          b2CreateCircleShape, this]
      · rw [List.mem_singleton.mp ho]
        simp [b2World.holdsBody, Orb.generateOrbAtMouse, Orb.new, b2CreateBody,
          b2CreateCircleShape]
  · simpa [hd] using hheld

theorem held_update (solver : b2World → ℚ → Int → b2BodyId → b2Vec2) (w w1 : World)
    (hheld : ∀ o ∈ w.orbs, w.m_worldId.holdsBody o.m_body)
    (hu : World.update solver w = some w1) :
    ∀ o ∈ w1.orbs, w1.m_worldId.holdsBody o.m_body := by
  obtain ⟨synced, hs⟩ :=
    syncAll_of_held (b2World_Step solver w.m_worldId TIME_STEP SUB_STEP) w.orbs
      (fun o ho => (step_holdsBody solver _ _ _ _).mpr (hheld o ho))
  rw [update_eq hs] at hu
  have hw := Option.some.inj hu
  subst hw
  intro o ho
  have hmem : o ∈ synced := (List.mem_filter.mp ho).1
  have hb : o.m_body ∈ w.orbs.map Orb.m_body := by
    rw [← syncAll_map_m_body _ _ _ hs]
    exact List.mem_map_of_mem _ hmem
  obtain ⟨o0, ho0, hbody⟩ := List.mem_map.mp hb
  have := hheld o0 ho0
  rw [hbody] at this
  exact (step_holdsBody solver _ _ _ _).mpr this

theorem syncAll_index (world : b2World) :
    ∀ (orbs synced : List Orb) (i : Nat) (o o1 : Orb),
      World.syncAll world orbs = some synced → orbs[i]? = some o →
      Orb.update world o = some o1 → synced[i]? = some o1 := by
  intro orbs
  induction orbs with
  | nil => intro synced i o o1 _ hi; simp at hi
  | cons a rest ih =>
    intro synced i o o1 hs hi hu
    obtain ⟨a1, rest1, ha, hrest, rfl⟩ := syncAll_cons_eq_some hs
    cases i with
    | zero =>
      simp only [List.getElem?_cons_zero, Option.some.injEq] at hi
      subst hi
      rw [ha] at hu
      simp [Option.some.inj hu]
    | succ k =>
      simp only [List.getElem?_cons_succ] at hi ⊢
      exact ih rest1 k o o1 hrest hi hu

/-- Filtering a list equals filtering it without an entry the filter drops. -/
theorem filter_eq_filter_eraseIdx {α : Type} (keep : α → Bool) :
    ∀ (l : List α) (i : Nat) (a : α), l[i]? = some a → keep a = false →
      l.filter keep = (l.eraseIdx i).filter keep := by
  intro l
  induction l with
  | nil => intro i a hi; simp at hi
  | cons b l ih =>
    intro i a hi ha
    cases i with
    | zero =>
      simp only [List.getElem?_cons_zero, Option.some.injEq] at hi
      subst hi
      simp [List.filter_cons, ha]
    | succ k =>
      simp only [List.getElem?_cons_succ] at hi
      simp [List.filter_cons, ih k a hi ha]

/-- In a list without duplicates a value sits at one index only. -/
theorem nodup_index_unique :
    ∀ (l : List Nat), l.Nodup → ∀ (i j : Nat) (b : Nat),
      l[i]? = some b → l[j]? = some b → i = j := by
  intro l
  induction l with
  | nil => intro _ i j b hi; simp at hi
  | cons a l ih =>
    intro hnd i j b hi hj
    obtain ⟨hnot, hl⟩ := List.nodup_cons.mp hnd
    cases i with
    | zero =>
      cases j with
      | zero => rfl
      | succ m =>
        simp only [List.getElem?_cons_zero, Option.some.injEq] at hi
        simp only [List.getElem?_cons_succ] at hj
        subst hi
        exact absurd (List.getElem?_mem hj) hnot
    | succ k =>
      cases j with
      | zero =>
        simp only [List.getElem?_cons_zero, Option.some.injEq] at hj
        simp only [List.getElem?_cons_succ] at hi
        subst hj
        exact absurd (List.getElem?_mem hi) hnot
      | succ m =>
        simp only [List.getElem?_cons_succ] at hi hj
        rw [ih hl k m b hi hj]

/-! ### The body handles of the live Orbs are distinct

Every handle the context holds is below `nextId`, so the body of a new Orb differs from the
bodies of the Orbs already in the collection; `update` only removes Orbs. -/

theorem fresh_new : ∀ b ∈ World.new.m_worldId.bodies.map Prod.fst, b < World.new.m_worldId.nextId := by
  decide

theorem fresh_handleInput (inp : Input) (w : World)
    (hfresh : ∀ b ∈ w.m_worldId.bodies.map Prod.fst, b < w.m_worldId.nextId) :
    ∀ b ∈ (World.handleInput inp w).m_worldId.bodies.map Prod.fst,
      b < (World.handleInput inp w).m_worldId.nextId := by
  unfold World.handleInput
  by_cases hd : inp.leftDown = true
  · by_cases hc : w.orbClock ≤ 1
    · simpa [hd, hc] using hfresh
    · simp only [hd, hc, if_true, if_false]
      intro b hb
      simp only [Orb.generateOrbAtMouse, Orb.new, b2CreateBody, b2CreateCircleShape,
        List.map_append, List.map_cons, List.map_nil, List.mem_append, List.mem_singleton] at hb ⊢
      rcases hb with hb | hb
      · exact Nat.lt_succ_of_lt (Nat.lt_succ_of_lt (hfresh b hb))
      · rw [hb]
        exact Nat.lt_succ_of_lt (Nat.lt_succ_self _)
  · simpa [hd] using hfresh

theorem nodup_new : (World.new.orbs.map Orb.m_body).Nodup := by
  simp [World.new]

theorem nodup_handleInput (inp : Input) (w : World)
    (hheld : ∀ o ∈ w.orbs, w.m_worldId.holdsBody o.m_body)
    (hfresh : ∀ b ∈ w.m_worldId.bodies.map Prod.fst, b < w.m_worldId.nextId)
    (hnd : (w.orbs.map Orb.m_body).Nodup) :
    ((World.handleInput inp w).orbs.map Orb.m_body).Nodup := by
  unfold World.handleInput
  by_cases hd : inp.leftDown = true
  · by_cases hc : w.orbClock ≤ 1
    · simpa [hd, hc] using hnd
    · simp only [hd, hc, if_true, if_false, List.map_append, List.map_cons, List.map_nil]
      refine List.Nodup.append hnd (List.nodup_singleton _) ?_
      intro b hb hb1
      obtain ⟨o, ho, rfl⟩ := List.mem_map.mp hb
      have hlt := hfresh o.m_body (hheld o ho)
      simp only [Orb.generateOrbAtMouse, Orb.new, b2CreateBody, List.mem_singleton] at hb1
      exact absurd hb1 (Nat.ne_of_lt hlt)
  · simpa [hd] using hnd

theorem fresh_update (solver : b2World → ℚ → Int → b2BodyId → b2Vec2) (w w1 : World)
    (hheld : ∀ o ∈ w.orbs, w.m_worldId.holdsBody o.m_body)
    (hfresh : ∀ b ∈ w.m_worldId.bodies.map Prod.fst, b < w.m_worldId.nextId)
    (hu : World.update solver w = some w1) :
    ∀ b ∈ w1.m_worldId.bodies.map Prod.fst, b < w1.m_worldId.nextId := by
  obtain ⟨synced, hs⟩ :=
    syncAll_of_held (b2World_Step solver w.m_worldId TIME_STEP SUB_STEP) w.orbs
      (fun o ho => (step_holdsBody solver _ _ _ _).mpr (hheld o ho))
  rw [update_eq hs] at hu
  have hw := Option.some.inj hu
  subst hw
  intro b hb
  exact hfresh b ((step_holdsBody solver _ _ _ b).mp hb)

theorem nodup_update (solver : b2World → ℚ → Int → b2BodyId → b2Vec2) (w w1 : World)
    (hheld : ∀ o ∈ w.orbs, w.m_worldId.holdsBody o.m_body)
    (hnd : (w.orbs.map Orb.m_body).Nodup)
    (hu : World.update solver w = some w1) :
    (w1.orbs.map Orb.m_body).Nodup := by
  obtain ⟨synced, hs⟩ :=
    syncAll_of_held (b2World_Step solver w.m_worldId TIME_STEP SUB_STEP) w.orbs
      (fun o ho => (step_holdsBody solver _ _ _ _).mpr (hheld o ho))
  rw [update_eq hs] at hu
  have hw := Option.some.inj hu
  subst hw
  have hsub : ((synced.filter (fun o => !o.offScreen)).map Orb.m_body).Sublist
      (w.orbs.map Orb.m_body) := by
    rw [← syncAll_map_m_body _ _ _ hs]
    exact (List.filter_sublist _).map _
  exact hnd.sublist hsub

/-- C2: for every Orb collection the loop of update is a single stable pass: it equals the
spec-level pass that syncs each Orb of the original collection once, in order, and removes
exactly the Orbs satisfying the cull test (the log of position reads is the original bodies,
each once, in order).  When the context holds the Orbs' bodies, update returns that
collection: the synced original with the culled Orbs removed, the survivors in their original
order, a sublist of the original, never longer, with no Orb duplicated. -/
theorem update_single_stable_pass (solver : b2World → ℚ → Int → b2BodyId → b2Vec2)
    (w : World) :
    World.updateLoop (b2World_Step solver w.m_worldId TIME_STEP SUB_STEP) 0 w.orbs [] =
      (World.syncAll (b2World_Step solver w.m_worldId TIME_STEP SUB_STEP) w.orbs).map
        (fun synced =>
          (b2World_Step solver w.m_worldId TIME_STEP SUB_STEP,
            synced.filter (fun o => !o.offScreen), w.orbs.map Orb.m_body)) ∧
    (World.update solver w).map World.orbs =
      World.cullPassSpec (b2World_Step solver w.m_worldId TIME_STEP SUB_STEP) w.orbs ∧
    ((∀ o ∈ w.orbs, w.m_worldId.holdsBody o.m_body) →
      ∃ synced : List Orb,
        List.Forall₂
          (fun o o1 =>
            Orb.update (b2World_Step solver w.m_worldId TIME_STEP SUB_STEP) o = some o1)
          w.orbs synced ∧
        World.update solver w =
          some { w with
            m_worldId := b2World_Step solver w.m_worldId TIME_STEP SUB_STEP
            orbs := synced.filter (fun o => !o.offScreen) } ∧
        (synced.filter (fun o => !o.offScreen)).Sublist synced ∧
        ((synced.filter (fun o => !o.offScreen)).map Orb.m_body).Sublist
          (w.orbs.map Orb.m_body) ∧
        (synced.filter (fun o => !o.offScreen)).length ≤ w.orbs.length) := by
  refine ⟨updateLoop_refines _ _, update_refines solver w, ?_⟩
  intro hheld
  obtain ⟨synced, hs⟩ :=
    syncAll_of_held (b2World_Step solver w.m_worldId TIME_STEP SUB_STEP) w.orbs
      (fun o ho => (step_holdsBody solver _ _ _ _).mpr (hheld o ho))
  have hsub : (synced.filter (fun o => !o.offScreen)).Sublist synced := List.filter_sublist _
  have hbody := syncAll_map_m_body _ _ _ hs
  refine ⟨synced, syncAll_forall₂ _ _ _ hs, update_eq hs, hsub, ?_, ?_⟩
  · rw [← hbody]
    exact hsub.map _
  · have h1 := hsub.length_le
    have h2 : synced.length = w.orbs.length := by
      have := congrArg List.length hbody
      simpa using this
    omega

/-- The demo World holds exactly the demo Orb, at its spawn position. -/
theorem demo_orbs : World.demo.orbs = [demoOrb ⟨32 / 10, 1⟩] := by
  simp [World.demo, World.handleInputs, World.handleInput, World.new, List.replicate,
    Orb.generateOrbAtMouse, Orb.new, Platform.new, b2CreateBody, b2CreateChain,
    b2CreateCircleShape, b2CreateWorld, px2M, PPM, b2DefaultBodyDef, demoOrb]
  norm_num

/-- The context of the demo World holds the body of every Orb of its collection. -/
theorem demo_held : ∀ o ∈ World.demo.orbs, World.demo.m_worldId.holdsBody o.m_body := by
  decide

/-- Syncing the demo Orb after a step reads the position the solver gave its body. -/
theorem demo_sync (p q : b2Vec2) :
    Orb.update (b2World_Step (solverTo p) World.demo.m_worldId TIME_STEP SUB_STEP) (demoOrb q)
      = some (demoOrb p) := by
  simp [World.demo, World.handleInputs, World.handleInput, World.new, List.replicate,
    Orb.generateOrbAtMouse, Orb.new, Platform.new, b2CreateBody, b2CreateChain,
    b2CreateCircleShape, b2CreateWorld, Orb.update, b2Body_GetPosition,
    b2World_Step, solverTo, List.lookup, demoOrb]

theorem demo_syncAll (p : b2Vec2) :
    World.syncAll (b2World_Step (solverTo p) World.demo.m_worldId TIME_STEP SUB_STEP)
      World.demo.orbs = some [demoOrb p] := by
  rw [demo_orbs]
  simp [World.syncAll, demo_sync]

/-- The demo World after one update in which the solver puts the Orb at `p`. -/
theorem demo_update (p : b2Vec2) :
    World.update (solverTo p) World.demo =
      some { World.demo with
        m_worldId := b2World_Step (solverTo p) World.demo.m_worldId TIME_STEP SUB_STEP
        orbs := [demoOrb p].filter (fun o => !o.offScreen) } :=
  update_eq (demo_syncAll p)

/-- The trio World holds three Orbs, each at its spawn position. -/
theorem trio_orbs :
    World.trio.orbs =
      [spawnedOrb 100 100 10 2 ⟨1, 1⟩, spawnedOrb 320 100 20 4 ⟨32 / 10, 1⟩,
        spawnedOrb 500 50 5 6 ⟨5, 1 / 2⟩] := by
  simp [World.trio, World.handleInputs, World.handleInput, World.new, List.replicate,
    Orb.generateOrbAtMouse, Orb.new, Platform.new, b2CreateBody, b2CreateChain,
    b2CreateCircleShape, b2CreateWorld, px2M, PPM, b2DefaultBodyDef, spawnedOrb]
  norm_num

/-- The context of the trio World holds the body of every Orb of its collection. -/
theorem trio_held : ∀ o ∈ World.trio.orbs, World.trio.m_worldId.holdsBody o.m_body := by
  decide

/-- The body handles of the trio World are distinct. -/
theorem trio_nodup : (World.trio.orbs.map Orb.m_body).Nodup := by
  decide

/-- Syncing an Orb of the trio World after the step reads the position the solver gave its
body. -/
theorem trio_sync (cx cy r : ℚ) (body : b2BodyId) (q : b2Vec2)
    (hbody : body = 2 ∨ body = 4 ∨ body = 6) :
    Orb.update (b2World_Step solverTrio World.trio.m_worldId TIME_STEP SUB_STEP)
        (spawnedOrb cx cy r body q) =
      some (spawnedOrb cx cy r body (solverTrio World.trio.m_worldId TIME_STEP SUB_STEP body)) := by
  rcases hbody with h | h | h <;> subst h <;>
  simp [World.trio, World.handleInputs, World.handleInput, World.new, List.replicate,
    Orb.generateOrbAtMouse, Orb.new, Platform.new, b2CreateBody, b2CreateChain,
    b2CreateCircleShape, b2CreateWorld, Orb.update, b2Body_GetPosition,
    b2World_Step, solverTrio, List.lookup, spawnedOrb]

theorem trio_syncAll :
    World.syncAll (b2World_Step solverTrio World.trio.m_worldId TIME_STEP SUB_STEP)
      World.trio.orbs =
      some [spawnedOrb 100 100 10 2 ⟨1, 3⟩, spawnedOrb 320 100 20 4 ⟨-1, 5⟩,
        spawnedOrb 500 50 5 6 ⟨5, 3⟩] := by
  rw [trio_orbs]
  simp [World.syncAll, trio_sync, solverTrio]

/-- The cull test on the synced trio: only the Orb with body 4 is off screen. -/
theorem trio_filter :
    [spawnedOrb 100 100 10 2 ⟨1, 3⟩, spawnedOrb 320 100 20 4 ⟨-1, 5⟩,
        spawnedOrb 500 50 5 6 ⟨5, 3⟩].filter (fun o => !o.offScreen) =
      [spawnedOrb 100 100 10 2 ⟨1, 3⟩, spawnedOrb 500 50 5 6 ⟨5, 3⟩] := by
  have h2 : (spawnedOrb 100 100 10 2 ⟨1, 3⟩).offScreen = false := by
    simp [Orb.offScreen, Orb.getPosition, Orb.getRadius, spawnedOrb, WINDOW_WIDTH]
    norm_num
  have h4 : (spawnedOrb 320 100 20 4 ⟨-1, 5⟩).offScreen = true := by
    simp [Orb.offScreen, Orb.getPosition, Orb.getRadius, spawnedOrb, WINDOW_WIDTH]
    norm_num
  have h6 : (spawnedOrb 500 50 5 6 ⟨5, 3⟩).offScreen = false := by
    simp [Orb.offScreen, Orb.getPosition, Orb.getRadius, spawnedOrb, WINDOW_WIDTH]
    norm_num
  simp [List.filter, h2, h4, h6]

/-- Witness for C2: on the trio World the middle Orb (body 4) has rolled off the left end.
The loop reads bodies 2, 4, 6 once each, in order, erases the middle Orb and goes on to the
Orb behind it, and update returns the two survivors in their original order. -/
theorem update_single_stable_pass_witness :
    (∀ o ∈ World.trio.orbs, World.trio.m_worldId.holdsBody o.m_body) ∧
    World.updateLoop (b2World_Step solverTrio World.trio.m_worldId TIME_STEP SUB_STEP) 0
        World.trio.orbs [] =
      some (b2World_Step solverTrio World.trio.m_worldId TIME_STEP SUB_STEP,
        [spawnedOrb 100 100 10 2 ⟨1, 3⟩, spawnedOrb 500 50 5 6 ⟨5, 3⟩], [2, 4, 6]) ∧
    (World.update solverTrio World.trio).map World.orbs =
      some [spawnedOrb 100 100 10 2 ⟨1, 3⟩, spawnedOrb 500 50 5 6 ⟨5, 3⟩] ∧
    World.update solverTrio World.trio =
      some { World.trio with
        m_worldId := b2World_Step solverTrio World.trio.m_worldId TIME_STEP SUB_STEP
        orbs := [spawnedOrb 100 100 10 2 ⟨1, 3⟩, spawnedOrb 500 50 5 6 ⟨5, 3⟩] } := by
  have h := update_single_stable_pass solverTrio World.trio
  refine ⟨trio_held, ?_, ?_, ?_⟩
  · rw [h.1, trio_syncAll, trio_orbs]
    simp only [Option.map_some', trio_filter]
    rfl
  · rw [h.2.1, World.cullPassSpec, trio_syncAll]
    simp only [Option.map_some', trio_filter]
  · obtain ⟨synced, hsync, hupd, -⟩ := h.2.2 trio_held
    have hs := syncAll_of_forall₂ _ _ _ hsync
    rw [trio_syncAll] at hs
    rw [hupd, ← Option.some.inj hs, trio_filter]

/-! ## The cull test -/

theorem offScreen_of_left {o : Orb} (h : m2Px o.getPosition.x + m2Px o.getRadius < 0) :
    o.offScreen = true := by
  simp only [m2Px, PPM] at h
  have hx : o.getPosition.x < 0 - o.getRadius := by linarith
  unfold Orb.offScreen
  simp only [Bool.or_eq_true, decide_eq_true_eq]
  exact Or.inl (Or.inr hx)

theorem not_offScreen_of_inside {o : Orb} (hr : 0 < m2Px o.getRadius)
    (hx0 : 0 < m2Px o.getPosition.x - m2Px o.getRadius)
    (hx1 : m2Px o.getPosition.x + m2Px o.getRadius < (WINDOW_WIDTH : ℚ))
    (hy1 : m2Px o.getPosition.y + m2Px o.getRadius < (WINDOW_HEIGHT : ℚ)) :
    o.offScreen = false := by
  simp only [m2Px, PPM, WINDOW_WIDTH, WINDOW_HEIGHT, Int.cast_ofNat] at hr hx0 hx1 hy1
  have h1 : ¬ o.getPosition.x > (WINDOW_WIDTH : ℚ) + o.getRadius := by
    simp only [WINDOW_WIDTH, Int.cast_ofNat]; intro h; linarith
  have h2 : ¬ o.getPosition.x < 0 - o.getRadius := by
    intro h; linarith
  have h3 : ¬ o.getPosition.y > (WINDOW_WIDTH : ℚ) + o.getRadius := by
    simp only [WINDOW_WIDTH, Int.cast_ofNat]; intro h; linarith
  unfold Orb.offScreen
  simp only [Bool.or_eq_false_iff, decide_eq_false_iff_not]
  exact ⟨⟨h1, h2⟩, h3⟩

/-- C4: a live Orb (the entry at index `i` of the collection) whose synced x position in
pixel units plus its radius in pixel units is less than 0 is removed from the collection by
update: update returns the synced collection without its entry `i` (and without any other
culled Orb), which is shorter than the original and does not contain the synced Orb; when
the body handles of the collection are distinct, no Orb with that Orb's body is left. -/
theorem update_culls_left_of_window (solver : b2World → ℚ → Int → b2BodyId → b2Vec2)
    (w : World) (i : Nat) (o o1 : Orb)
    (hheld : ∀ j ∈ w.orbs, w.m_worldId.holdsBody j.m_body)
    (hi : w.orbs[i]? = some o)
    (hsync : Orb.update (b2World_Step solver w.m_worldId TIME_STEP SUB_STEP) o = some o1)
    (hleft : m2Px o1.getPosition.x + m2Px o1.getRadius < 0) :
    ∃ w1 synced,
      World.update solver w = some w1 ∧
      World.syncAll (b2World_Step solver w.m_worldId TIME_STEP SUB_STEP) w.orbs = some synced ∧
      synced[i]? = some o1 ∧
      w1.orbs = (synced.eraseIdx i).filter (fun j => !j.offScreen) ∧
      w1.orbs.length < w.orbs.length ∧
      o1 ∉ w1.orbs ∧
      ((w.orbs.map Orb.m_body).Nodup → o.m_body ∉ w1.orbs.map Orb.m_body) := by
  obtain ⟨synced, hs⟩ :=
    syncAll_of_held (b2World_Step solver w.m_worldId TIME_STEP SUB_STEP) w.orbs
      (fun j hj => (step_holdsBody solver _ _ _ _).mpr (hheld j hj))
  have hidx : synced[i]? = some o1 := syncAll_index _ _ _ i o o1 hs hi hsync
  have hoff : o1.offScreen = true := offScreen_of_left hleft
  have hdrop : (fun j : Orb => !j.offScreen) o1 = false := by simp [hoff]
  have hfilter : synced.filter (fun j => !j.offScreen)
      = (synced.eraseIdx i).filter (fun j => !j.offScreen) :=
    filter_eq_filter_eraseIdx _ synced i o1 hidx hdrop
  have hbody := syncAll_map_m_body _ _ _ hs
  have hlen : synced.length = w.orbs.length := by
    have := congrArg List.length hbody
    simpa using this
  have hilt : i < synced.length := (List.getElem?_eq_some.mp hidx).1
  refine ⟨_, synced, update_eq hs, hs, hidx, hfilter, ?_, ?_, ?_⟩
  · show (synced.filter (fun j => !j.offScreen)).length < w.orbs.length
    rw [hfilter]
    have h1 := List.length_filter_le (fun j : Orb => !j.offScreen) (synced.eraseIdx i)
    have h2 : (synced.eraseIdx i).length = synced.length - 1 := by
      rw [List.length_eraseIdx, if_pos hilt]
    omega
  · intro hmem
    have hkeep := (List.mem_filter.mp hmem).2
    simp [hoff] at hkeep
  · intro hnd hmem
    obtain ⟨j, hj, hjb⟩ := List.mem_map.mp hmem
    have hj2 : j ∈ (synced.eraseIdx i).filter (fun j => !j.offScreen) := by
      rw [← hfilter]; exact hj
    obtain ⟨k, hk, hkj⟩ := List.mem_eraseIdx_iff_getElem?.mp (List.mem_filter.mp hj2).1
    have hb1 : (synced.map Orb.m_body)[k]? = some o.m_body := by
      simp [List.getElem?_map, hkj, hjb]
    have hb2 : (synced.map Orb.m_body)[i]? = some o.m_body := by
      simp [List.getElem?_map, hidx, Orb.update_m_body hsync]
    rw [← hbody] at hnd
    exact hk (nodup_index_unique _ hnd k i _ hb1 hb2)

/-- Witness for C4: in the trio World the middle Orb (index 1, body 4), moved to pixel
(-100, 500) with pixel radius 20, is removed: update leaves the Orbs with bodies 2 and 6, and
body 4 is not among them. -/
theorem update_culls_left_of_window_witness :
    ∃ w1, World.update solverTrio World.trio = some w1 ∧
      w1.orbs = [spawnedOrb 100 100 10 2 ⟨1, 3⟩, spawnedOrb 500 50 5 6 ⟨5, 3⟩] ∧
      w1.orbs.length < World.trio.orbs.length ∧
      (4 : b2BodyId) ∉ w1.orbs.map Orb.m_body := by
  obtain ⟨w1, synced, hu, hs, -, horbs, hlen, -, hbody⟩ :=
    update_culls_left_of_window solverTrio World.trio 1
      (spawnedOrb 320 100 20 4 ⟨32 / 10, 1⟩) (spawnedOrb 320 100 20 4 ⟨-1, 5⟩) trio_held
      (by rw [trio_orbs]; rfl)
      (by rw [trio_sync _ _ _ _ _ (Or.inr (Or.inl rfl))]; simp [solverTrio])
      (by norm_num [m2Px, PPM, Orb.getPosition, Orb.getRadius, spawnedOrb])
  refine ⟨w1, hu, ?_, hlen, hbody trio_nodup⟩
  rw [trio_syncAll] at hs
  rw [horbs, ← Option.some.inj hs]
  have h2 : (spawnedOrb 100 100 10 2 ⟨1, 3⟩).offScreen = false := by
    simp [Orb.offScreen, Orb.getPosition, Orb.getRadius, spawnedOrb, WINDOW_WIDTH]
    norm_num
  have h6 : (spawnedOrb 500 50 5 6 ⟨5, 3⟩).offScreen = false := by
    simp [Orb.offScreen, Orb.getPosition, Orb.getRadius, spawnedOrb, WINDOW_WIDTH]
    norm_num
  simp [List.eraseIdx, List.filter, h2, h6]

/-- C5: a live Orb with positive radius whose synced position is strictly within the window
bounds in pixel units is retained in the collection by update. -/
theorem update_retains_inside_window (solver : b2World → ℚ → Int → b2BodyId → b2Vec2)
    (w : World) (o o1 : Orb)
    (hheld : ∀ j ∈ w.orbs, w.m_worldId.holdsBody j.m_body)
    (ho : o ∈ w.orbs)
    (hsync : Orb.update (b2World_Step solver w.m_worldId TIME_STEP SUB_STEP) o = some o1)
    (hr : 0 < m2Px o1.getRadius)
    (hx0 : 0 < m2Px o1.getPosition.x - m2Px o1.getRadius)
    (hx1 : m2Px o1.getPosition.x + m2Px o1.getRadius < (WINDOW_WIDTH : ℚ))
    (_hy0 : 0 < m2Px o1.getPosition.y - m2Px o1.getRadius)
    (hy1 : m2Px o1.getPosition.y + m2Px o1.getRadius < (WINDOW_HEIGHT : ℚ)) :
    ∃ w1, World.update solver w = some w1 ∧ o1 ∈ w1.orbs := by
  obtain ⟨synced, hs⟩ :=
    syncAll_of_held (b2World_Step solver w.m_worldId TIME_STEP SUB_STEP) w.orbs
      (fun j hj => (step_holdsBody solver _ _ _ _).mpr (hheld j hj))
  refine ⟨_, update_eq hs, ?_⟩
  refine List.mem_filter.mpr ⟨syncAll_mem _ _ _ hs o ho o1 hsync, ?_⟩
  simp [not_offScreen_of_inside hr hx0 hx1 hy1]

/-- Witness for C5: the demo Orb at pixel (320, 100) with radius 10 is retained. -/
theorem update_retains_inside_window_witness :
    ∃ w1, World.update (solverTo ⟨32 / 10, 1⟩) World.demo = some w1 ∧
      demoOrb ⟨32 / 10, 1⟩ ∈ w1.orbs :=
  update_retains_inside_window (solverTo ⟨32 / 10, 1⟩) World.demo
    (demoOrb ⟨32 / 10, 1⟩) (demoOrb ⟨32 / 10, 1⟩) demo_held
    (by rw [demo_orbs]; exact List.mem_singleton.mpr rfl)
    (demo_sync _ _)
    (by norm_num [m2Px, PPM, Orb.getPosition, Orb.getRadius, demoOrb])
    (by norm_num [m2Px, PPM, Orb.getPosition, Orb.getRadius, demoOrb])
    (by norm_num [m2Px, PPM, Orb.getPosition, Orb.getRadius, demoOrb, WINDOW_WIDTH])
    (by norm_num [m2Px, PPM, Orb.getPosition, Orb.getRadius, demoOrb])
    (by norm_num [m2Px, PPM, Orb.getPosition, Orb.getRadius, demoOrb, WINDOW_HEIGHT])

/-- C3 (the code at the failing input): the demo Orb synced to world position (7, 5), that
is pixel (700, 500) with pixel radius 10, has x - r = 690 > 640 in pixel units, yet the cull
test compares the world-unit values 7 and 640 + 0.1 and update retains the Orb. -/
theorem update_keeps_right_of_window_demo :
    m2Px (demoOrb ⟨7, 5⟩).getPosition.x - m2Px (demoOrb ⟨7, 5⟩).getRadius = 690 ∧
    (690 : ℚ) > (WINDOW_WIDTH : ℚ) ∧
    (demoOrb ⟨7, 5⟩).offScreen = false ∧
    (World.update (solverTo ⟨7, 5⟩) World.demo).map World.orbs = some [demoOrb ⟨7, 5⟩] := by
  have hoff : (demoOrb ⟨7, 5⟩).offScreen = false := by
    simp [Orb.offScreen, Orb.getPosition, Orb.getRadius, demoOrb, WINDOW_WIDTH]
    norm_num
  refine ⟨?_, ?_, hoff, ?_⟩
  · norm_num [m2Px, PPM, Orb.getPosition, Orb.getRadius, demoOrb]
  · norm_num [WINDOW_WIDTH]
  · rw [demo_update]
    simp [List.filter, hoff]

/-- C6 (the code at the failing input): the demo Orb synced to world position (3.2, 7), that
is pixel (320, 700) with pixel radius 10, has y = 700 > 640 + 10 in pixel units, yet the cull
test compares the world-unit values 7 and 640 + 0.1 and update retains the Orb. -/
theorem update_keeps_below_window_demo :
    m2Px (demoOrb ⟨32 / 10, 7⟩).getPosition.y = 700 ∧
    (700 : ℚ) > (WINDOW_WIDTH : ℚ) + m2Px (demoOrb ⟨32 / 10, 7⟩).getRadius ∧
    (demoOrb ⟨32 / 10, 7⟩).offScreen = false ∧
    (World.update (solverTo ⟨32 / 10, 7⟩) World.demo).map World.orbs =
      some [demoOrb ⟨32 / 10, 7⟩] := by
  have hoff : (demoOrb ⟨32 / 10, 7⟩).offScreen = false := by
    simp [Orb.offScreen, Orb.getPosition, Orb.getRadius, demoOrb, WINDOW_WIDTH]
    norm_num
  refine ⟨?_, ?_, hoff, ?_⟩
  · norm_num [m2Px, PPM, Orb.getPosition, Orb.getRadius, demoOrb]
  · norm_num [m2Px, PPM, Orb.getRadius, demoOrb, WINDOW_WIDTH]
  · rw [demo_update]
    simp [List.filter, hoff]

/-- C7 (the code at the failing input): the demo Orb owns body 2 and shape 3 of the context;
synced to world position (-1, 5) it is culled, the collection becomes empty, and the context
after update still holds body 2 and shape 3. -/
theorem update_cull_leaves_body_and_shape_demo :
    World.demo.orbs.map (fun o => (o.m_body, o.m_shape)) = [(2, 3)] ∧
    ∃ w1, World.update (solverTo ⟨-1, 5⟩) World.demo = some w1 ∧ w1.orbs = [] ∧
      w1.m_worldId.holdsBody 2 ∧ w1.m_worldId.holdsShape 3 := by
  have hoff : (demoOrb ⟨-1, 5⟩).offScreen = true := by
    simp [Orb.offScreen, Orb.getPosition, Orb.getRadius, demoOrb, WINDOW_WIDTH]
    norm_num
  refine ⟨by decide, _, demo_update _, ?_, ?_, ?_⟩
  · simp [List.filter, hoff]
  · exact (step_holdsBody _ _ _ _ _).mpr (by decide)
  · show b2World.holdsShape World.demo.m_worldId 3
    decide

/-! ## The platform polyline -/

/-- One iteration of the draw loop at an index below the bound. -/
theorem drawLoop_step {p : Platform} {i : Nat} {a b : b2Vec2} (out : List DrawLineEx)
    (hi : i < toSizeT (p.m_chainDef.count - 1)) (ha : p.m_verts[i]? = some a)
    (hb : p.m_verts[i + 1]? = some b) :
    Platform.drawLoop p i out =
      Platform.drawLoop p (i + 1) (out ++ [⟨m2PxVec a, m2PxVec b, 2, (0, 0, 255, 255)⟩]) := by
  rw [Platform.drawLoop]
  simp only [hi, if_true, ha, hb]

/-- The draw loop at the bound. -/
theorem drawLoop_done {p : Platform} {i : Nat} (out : List DrawLineEx)
    (hi : ¬ i < toSizeT (p.m_chainDef.count - 1)) :
    Platform.drawLoop p i out = some out := by
  rw [Platform.drawLoop]
  simp only [hi, if_false]

theorem platform_verts (world : b2World) :
    (Platform.new world).2.m_verts =
      [⟨-10 / 100, 470 / 100⟩, ⟨0, 450 / 100⟩, ⟨160 / 100, 390 / 100⟩, ⟨320 / 100, 405 / 100⟩,
        ⟨480 / 100, 340 / 100⟩, ⟨640 / 100, 450 / 100⟩, ⟨650 / 100, 470 / 100⟩] := by
  simp [Platform.new, px2MVec, PPM, WINDOW_HEIGHT, WINDOW_WIDTH]
  norm_num

theorem platform_bound (world : b2World) :
    toSizeT ((Platform.new world).2.m_chainDef.count - 1) = 6 := by
  simp [Platform.new, toSizeT]

/-- C10: for the Platform built by the constructor there are 7 stored vertices and draw
emits exactly 6 line segments without indexing outside them, the i-th from vertex i to
vertex i + 1 converted to pixel units, in order; the pixel-space polyline is (-10,470),
(0,450), (160,390), (320,405), (480,340), (640,450), (650,470), and its first and last
points lie outside the horizontal screen range [0, 640]. -/
theorem platform_draw_polyline (world : b2World) :
    (Platform.new world).2.m_verts.length = 7 ∧
    (Platform.new world).2.m_verts.map m2PxVec =
      [⟨-10, 470⟩, ⟨0, 450⟩, ⟨160, 390⟩, ⟨320, 405⟩, ⟨480, 340⟩, ⟨640, 450⟩, ⟨650, 470⟩] ∧
    Platform.draw (Platform.new world).2 =
      some [⟨⟨-10, 470⟩, ⟨0, 450⟩, 2, (0, 0, 255, 255)⟩,
        ⟨⟨0, 450⟩, ⟨160, 390⟩, 2, (0, 0, 255, 255)⟩,
        ⟨⟨160, 390⟩, ⟨320, 405⟩, 2, (0, 0, 255, 255)⟩,
        ⟨⟨320, 405⟩, ⟨480, 340⟩, 2, (0, 0, 255, 255)⟩,
        ⟨⟨480, 340⟩, ⟨640, 450⟩, 2, (0, 0, 255, 255)⟩,
        ⟨⟨640, 450⟩, ⟨650, 470⟩, 2, (0, 0, 255, 255)⟩] ∧
    Platform.draw (Platform.new world).2 =
      some ((List.range 6).filterMap (fun i =>
        match (Platform.new world).2.m_verts[i]?, (Platform.new world).2.m_verts[i + 1]? with
        | some a, some b => some ⟨m2PxVec a, m2PxVec b, 2, (0, 0, 255, 255)⟩
        | _, _ => none)) ∧
    (∃ cmds first last, Platform.draw (Platform.new world).2 = some cmds ∧
      cmds.length = 6 ∧ cmds.head? = some first ∧ cmds.getLast? = some last ∧
      first.startPos.x < 0 ∧ (WINDOW_WIDTH : ℚ) < last.endPos.x) := by
  have hv := platform_verts world
  have hc := platform_bound world
  have hdraw : Platform.draw (Platform.new world).2 =
      some [⟨⟨-10, 470⟩, ⟨0, 450⟩, 2, (0, 0, 255, 255)⟩,
        ⟨⟨0, 450⟩, ⟨160, 390⟩, 2, (0, 0, 255, 255)⟩,
        ⟨⟨160, 390⟩, ⟨320, 405⟩, 2, (0, 0, 255, 255)⟩,
        ⟨⟨320, 405⟩, ⟨480, 340⟩, 2, (0, 0, 255, 255)⟩,
        ⟨⟨480, 340⟩, ⟨640, 450⟩, 2, (0, 0, 255, 255)⟩,
        ⟨⟨640, 450⟩, ⟨650, 470⟩, 2, (0, 0, 255, 255)⟩] := by
    unfold Platform.draw
    rw [drawLoop_step [] (by rw [hc]; decide) (by rw [hv]; rfl) (by rw [hv]; rfl),
      drawLoop_step _ (by rw [hc]; decide) (by rw [hv]; rfl) (by rw [hv]; rfl),
      drawLoop_step _ (by rw [hc]; decide) (by rw [hv]; rfl) (by rw [hv]; rfl),
      drawLoop_step _ (by rw [hc]; decide) (by rw [hv]; rfl) (by rw [hv]; rfl),
      drawLoop_step _ (by rw [hc]; decide) (by rw [hv]; rfl) (by rw [hv]; rfl),
      drawLoop_step _ (by rw [hc]; decide) (by rw [hv]; rfl) (by rw [hv]; rfl),
      drawLoop_done _ (by rw [hc]; decide)]
    simp [m2PxVec, PPM]
  refine ⟨by rw [hv]; rfl, ?_, hdraw, ?_, ?_⟩
  · rw [hv]
    simp [m2PxVec, PPM]
  · rw [hdraw, hv]
    simp [List.range, List.range.loop, m2PxVec, PPM]
  · refine ⟨_, _, _, hdraw, rfl, rfl, rfl, ?_, ?_⟩
    · norm_num
    · norm_num [WINDOW_WIDTH]

end Box2DChainshapes
